import Mathlib

/-!
Verification development for the `micro_ihex` Intel HEX codec.

The embedding models bytes as `Nat` values (well-formedness hypotheses
bound them below 256 where the Rust types force it), byte buffers and
lines as `List Nat`, and the fallible-or-panicking Rust control flow as
an explicit three-way outcome type `RResult`: a Rust function either
panics (index out of bounds, arithmetic underflow), returns an error
value, or returns a result.

Embedded source files: `src/checksum.rs`, `src/error.rs`, `src/ihex.rs`,
`src/parse.rs`, `src/serializer.rs`, together with the behaviour of the
`hex` crate primitives `decode_to_slice` / `encode_to_slice` that they
call.
-/

namespace MicroIhex

/-- Outcome of running a Rust function that may panic, fail with an
error value, or succeed. -/
inductive RResult (ε α : Type) where
  | panic : RResult ε α
  | err (e : ε) : RResult ε α
  | ok (a : α) : RResult ε α
deriving DecidableEq, Repr

/-- `src/error.rs`: the `IHexError` enum. -/
inductive IHexError where
  | MissingColon
  | ParseError
  | BadChecksum (computed expected : Nat)
  | BadLength
  | BadType
deriving DecidableEq, Repr

/-- `src/ihex.rs`: the `IHex` record enum.  The `Data` variant's
`bytes : [u8; 0xFF]` array is modelled as a `List Nat` (length 255 under
well-formedness). -/
inductive IHex where
  | Data (bytes : List Nat) (length : Nat) (offset : Nat)
  | EndOfFile
  | ExtendedSegmentAddress (address : Nat)
  | StartSegmentAddress (cs ip : Nat)
  | ExtendedLinearAddress (address : Nat)
  | StartLinearAddress (address : Nat)
deriving DecidableEq, Repr

/-- `src/lib.rs` module `types`: the record type tags. -/
def types.DATA : Nat := 0x00
def types.END_OF_FILE : Nat := 0x01
def types.EXTENDED_SEGMENT_ADDRESS : Nat := 0x02
def types.START_SEGMENT_ADDRESS : Nat := 0x03
def types.EXTENDED_LINEAR_ADDRESS : Nat := 0x04
def types.START_LINEAR_ADDRESS : Nat := 0x05

/-- `src/ihex.rs`: `IHex::record_type`, the tag derived from the variant. -/
def IHex.record_type : IHex → Nat
  | .Data _ _ _ => types.DATA
  | .EndOfFile => types.END_OF_FILE
  | .ExtendedSegmentAddress _ => types.EXTENDED_SEGMENT_ADDRESS
  | .StartSegmentAddress _ _ => types.START_SEGMENT_ADDRESS
  | .ExtendedLinearAddress _ => types.EXTENDED_LINEAR_ADDRESS
  | .StartLinearAddress _ => types.START_LINEAR_ADDRESS

/-- Well-formedness of a record: every field fits the Rust machine type
that holds it (`u8`, `u16`, `u32`, `[u8; 0xFF]`).  Any value of the Rust
`IHex` type satisfies this; it is the constructibility condition of the
embedding. -/
def IHex.WF : IHex → Prop
  | .Data bytes length offset =>
      bytes.length = 255 ∧ (∀ b ∈ bytes, b < 256) ∧ length < 256 ∧ offset < 65536
  | .EndOfFile => True
  | .ExtendedSegmentAddress a => a < 65536
  | .StartSegmentAddress cs ip => cs < 65536 ∧ ip < 65536
  | .ExtendedLinearAddress a => a < 65536
  | .StartLinearAddress a => a < 4294967296

instance : DecidablePred IHex.WF := by
  intro r
  cases r <;> simp only [IHex.WF] <;> infer_instance

/-- `src/checksum.rs`: `checksum`, the two's-complement sum-to-zero
checksum.  `0u8.wrapping_sub(fold wrapping_add)` becomes subtraction
from 256 modulo 256 of the running sum modulo 256. -/
def checksum (bytes : List Nat) : Nat :=
  (256 - bytes.foldl (fun acc b => (acc + b) % 256) 0) % 256

/-- `hex` crate: value of one ASCII hex digit (both cases accepted). -/
def hexVal (c : Nat) : Option Nat :=
  if 48 ≤ c ∧ c ≤ 57 then some (c - 48)
  else if 97 ≤ c ∧ c ≤ 102 then some (c - 87)
  else if 65 ≤ c ∧ c ≤ 70 then some (c - 55)
  else none

/-- `hex` crate: `decode_to_slice` with an output slice of exactly half
the input length — fails on an odd-length input or a non-hex character,
otherwise yields the decoded bytes. -/
def hexDecodeList : List Nat → Option (List Nat)
  | [] => some []
  | [_] => none
  | hi :: lo :: rest =>
    match hexVal hi, hexVal lo, hexDecodeList rest with
    | some h, some l, some r => some ((16 * h + l) :: r)
    | _, _, _ => none

/-- `hex` crate: lowercase hex digit of a nibble, as an ASCII code. -/
def hexDigit (n : Nat) : Nat := if n < 10 then 48 + n else 87 + n

/-- `hex` crate: `encode_to_slice`, lowercase, two digits per byte. -/
def hexEncode (bytes : List Nat) : List Nat :=
  bytes.foldr (fun b acc => hexDigit (b / 16 % 16) :: hexDigit (b % 16) :: acc) []

/-- `src/parse.rs`: the length check and record-type dispatch of
`IHex::parse` (from `if data.len() != length as usize` on).  A payload
shorter than the type's fixed width makes the reads `data[0..2]` /
`data[0..4]` of the address record arms panic. -/
def parseRecord (length address record_type : Nat) (data : List Nat) :
    RResult IHexError IHex :=
  if data.length ≠ length then .err .BadLength
  else if record_type = types.DATA then
    .ok (.Data (data ++ List.replicate (255 - data.length) 0) length address)
  else if record_type = types.END_OF_FILE then .ok .EndOfFile
  else if record_type = types.EXTENDED_SEGMENT_ADDRESS then
    if data.length < 2 then .panic
    else .ok (.ExtendedSegmentAddress (256 * data.getD 0 0 + data.getD 1 0))
  else if record_type = types.START_SEGMENT_ADDRESS then
    if data.length < 4 then .panic
    else .ok (.StartSegmentAddress (256 * data.getD 0 0 + data.getD 1 0)
      (256 * data.getD 2 0 + data.getD 3 0))
  else if record_type = types.EXTENDED_LINEAR_ADDRESS then
    if data.length < 2 then .panic
    else .ok (.ExtendedLinearAddress (256 * data.getD 0 0 + data.getD 1 0))
  else if record_type = types.START_LINEAR_ADDRESS then
    if data.length < 4 then .panic
    else .ok (.StartLinearAddress (16777216 * data.getD 0 0 +
      65536 * data.getD 1 0 + 256 * data.getD 2 0 + data.getD 3 0))
  else .err .BadType

/-- `src/parse.rs`: the part of `IHex::parse` from the line
`let expected_checksum = bytes[length - 1];` on, acting on the decoded
bytes.  An empty decoded slice makes `length - 1` underflow (panic);
fewer than four remaining bytes make one of the header reads
`bytes[0]`, `bytes[1..3]`, `bytes[3]` panic; the remainder is the
header split followed by `parseRecord`. -/
def parseDecoded (decoded : List Nat) : RResult IHexError IHex :=
  if decoded.length = 0 then .panic
  else
    let expected_checksum := decoded.getLastD 0
    let bytes := decoded.dropLast
    let ck := checksum bytes
    if ck ≠ expected_checksum then .err (.BadChecksum ck expected_checksum)
    else if bytes.length < 4 then .panic
    else parseRecord (bytes.getD 0 0) (256 * bytes.getD 1 0 + bytes.getD 2 0)
      (bytes.getD 3 0) (bytes.drop 4)

/-- `src/parse.rs`: `IHex::parse`.  `line[0]` panics on an empty line;
the scratch buffer is `[0u8; 0x200]`, so taking the slice
`&mut bytes[..length]` with `length = line.len() / 2` panics once
`length` exceeds 512; `hex::decode_to_slice` failure maps to
`ParseError`; the rest is `parseDecoded`. -/
def parse (line : List Nat) : RResult IHexError IHex :=
  match line with
  | [] => .panic
  | c :: rest =>
    if c ≠ 58 then .err .MissingColon
    else if rest.length / 2 > 512 then .panic
    else
      match hexDecodeList rest with
      | none => .err .ParseError
      | some decoded => parseDecoded decoded

/-- `src/serializer.rs`: `format`.  The undersized-buffer check's body is
an empty comment (`// Freak out`), so an undersized destination reaches
`buffer[0] = b':'` (panics when empty) and then the slice
`&mut buffer[1..buffer_length]` (panics when too short): either way a
panic, never an error value.  On a large-enough buffer it writes the
marker plus the lowercase hex encoding of header ++ data ++ checksum and
returns `Ok(buffer_length)`; the tail of the buffer keeps its old
contents. -/
def format (record_type offset : Nat) (data : List Nat) (buffer : List Nat) :
    RResult Unit (List Nat × Nat) :=
  let data_length := data.length + 5
  let buffer_length := 2 * data_length + 1
  if buffer.length < buffer_length then .panic
  else
    let header := [data.length % 256, offset / 256 % 256, offset % 256, record_type % 256]
    let record := header ++ data
    let line := 58 :: hexEncode (record ++ [checksum record])
    .ok (line ++ buffer.drop buffer_length, buffer_length)

/-- `src/serializer.rs`: `IHex::serialize`, dispatching to `format` with
the on-wire payload bytes of each variant (big-endian fields). -/
def IHex.serialize (r : IHex) (buffer : List Nat) : RResult Unit (List Nat × Nat) :=
  match r with
  | .Data bytes length offset => format r.record_type offset (bytes.take length) buffer
  | .EndOfFile => format r.record_type 0 [] buffer
  | .ExtendedSegmentAddress a => format r.record_type 0 [a / 256 % 256, a % 256] buffer
  | .StartSegmentAddress cs ip =>
      format r.record_type 0 [cs / 256 % 256, cs % 256, ip / 256 % 256, ip % 256] buffer
  | .ExtendedLinearAddress a => format r.record_type 0 [a / 256 % 256, a % 256] buffer
  | .StartLinearAddress a =>
      format r.record_type 0
        [a / 16777216 % 256, a / 65536 % 256, a / 256 % 256, a % 256] buffer

/-- On-wire payload length of a record (what `serialize` passes to
`format` as `data`): used to state buffer-size requirements. -/
def IHex.payloadLen : IHex → Nat
  | .Data _ length _ => length
  | .EndOfFile => 0
  | .ExtendedSegmentAddress _ => 2
  | .StartSegmentAddress _ _ => 4
  | .ExtendedLinearAddress _ => 2
  | .StartLinearAddress _ => 4

/-- Number of bytes `serialize` writes: `1 + 2*(4 + payload_len + 1)`. -/
def IHex.serializedLen (r : IHex) : Nat := 1 + 2 * (4 + r.payloadLen + 1)

/-- A record is canonical when it is well formed and, for the `Data`
variant, the payload array is zero beyond the `length` field. -/
def IHex.canonical (r : IHex) : Prop :=
  r.WF ∧ match r with
    | .Data bytes length _ => bytes.drop length = List.replicate (255 - length) 0
    | _ => True

instance : DecidablePred IHex.canonical := by
  intro r
  unfold IHex.canonical
  cases r <;> dsimp only <;> infer_instance

/-- ASCII codes of a string, for writing concrete lines. -/
def bytesOfString (s : String) : List Nat := s.data.map Char.toNat

end MicroIhex

namespace MicroIhex

/-! ### Basic lemmas about the checksum -/

theorem foldl_wrap_mod (l : List Nat) :
    ∀ a : Nat, (l.foldl (fun acc b => (acc + b) % 256) a) % 256 = (a + l.sum) % 256 := by
  induction l with
  | nil => intro a; simp
  | cons x t ih =>
    intro a
    simp only [List.foldl_cons, List.sum_cons]
    rw [ih ((a + x) % 256), Nat.mod_add_mod]
    ring_nf

theorem foldl_wrap_lt (l : List Nat) :
    ∀ a : Nat, a < 256 → l.foldl (fun acc b => (acc + b) % 256) a < 256 := by
  induction l with
  | nil => intro a ha; simpa using ha
  | cons x t ih =>
    intro a _
    exact ih _ (Nat.mod_lt _ (by omega))

theorem checksum_eq (l : List Nat) : checksum l = (256 - l.sum % 256) % 256 := by
  unfold checksum
  have h1 := foldl_wrap_mod l 0
  have h2 := foldl_wrap_lt l 0 (by omega)
  rw [Nat.mod_eq_of_lt h2] at h1
  rw [h1]
  simp

theorem checksum_lt (l : List Nat) : checksum l < 256 := by
  rw [checksum_eq]; omega

theorem sum_add_checksum (l : List Nat) : (l.sum + checksum l) % 256 = 0 := by
  rw [checksum_eq]; omega

end MicroIhex

namespace MicroIhex

theorem hexVal_lt (c v : Nat) (h : hexVal c = some v) : v < 16 := by
  unfold hexVal at h
  split at h
  · simp only [Option.some.injEq] at h; omega
  · split at h
    · simp only [Option.some.injEq] at h; omega
    · split at h
      · simp only [Option.some.injEq] at h; omega
      · simp at h

theorem hexDecodeList_length : ∀ (l d : List Nat), hexDecodeList l = some d →
    l.length = 2 * d.length
  | [], d, h => by
    simp only [hexDecodeList, Option.some.injEq] at h
    simp [← h]
  | [x], d, h => by
    simp only [hexDecodeList] at h
    exact Option.noConfusion h
  | hi :: lo :: rest, d, h => by
    unfold hexDecodeList at h
    split at h
    · rename_i hv lv rv hh hl hr
      simp only [Option.some.injEq] at h
      have := hexDecodeList_length rest rv hr
      subst h
      simp only [List.length_cons, this]
      omega
    · exact absurd h (by simp)

theorem hexDecodeList_lt : ∀ (l d : List Nat), hexDecodeList l = some d →
    ∀ b ∈ d, b < 256
  | [], d, h => by
    simp only [hexDecodeList, Option.some.injEq] at h
    simp [← h]
  | [x], d, h => by
    simp only [hexDecodeList] at h
    exact Option.noConfusion h
  | hi :: lo :: rest, d, h => by
    unfold hexDecodeList at h
    split at h
    · rename_i hv lv rv hh hl hr
      simp only [Option.some.injEq] at h
      subst h
      intro b hb
      rcases List.mem_cons.mp hb with hb | hb
      · have := hexVal_lt _ _ hh
        have := hexVal_lt _ _ hl
        omega
      · exact hexDecodeList_lt rest rv hr b hb
    · exact absurd h (by simp)

theorem hexVal_hexDigit : ∀ n < 16, hexVal (hexDigit n) = some n := by decide

theorem hexEncode_cons (b : Nat) (t : List Nat) :
    hexEncode (b :: t) = hexDigit (b / 16 % 16) :: hexDigit (b % 16) :: hexEncode t := rfl

theorem hexEncode_length (l : List Nat) : (hexEncode l).length = 2 * l.length := by
  induction l with
  | nil => rfl
  | cons b t ih =>
    rw [hexEncode_cons]
    simp only [List.length_cons, ih]
    omega

theorem hexDecode_hexEncode (l : List Nat) (hl : ∀ b ∈ l, b < 256) :
    hexDecodeList (hexEncode l) = some l := by
  induction l with
  | nil => rfl
  | cons b t ih =>
    have hb : b < 256 := hl b (List.mem_cons_self _ _)
    rw [hexEncode_cons]
    unfold hexDecodeList
    rw [hexVal_hexDigit _ (by omega), hexVal_hexDigit _ (by omega),
      ih (fun x hx => hl x (List.mem_cons_of_mem _ hx))]
    have hbe : 16 * (b / 16 % 16) + b % 16 = b := by omega
    simp [hbe]

theorem parse_decode (rest d : List Nat) (h : hexDecodeList rest = some d)
    (hlen : d.length ≤ 512) : parse (58 :: rest) = parseDecoded d := by
  have hl := hexDecodeList_length _ _ h
  simp only [parse, ne_eq, not_true_eq_false, if_false, ite_false]
  rw [if_neg (by omega), h]

theorem parseDecoded_badChecksum (d : List Nat) (hne : d ≠ [])
    (hmis : checksum d.dropLast ≠ d.getLastD 0) :
    parseDecoded d = .err (.BadChecksum (checksum d.dropLast) (d.getLastD 0)) := by
  unfold parseDecoded
  rw [if_neg (fun hh => hne (List.length_eq_zero.mp hh))]
  simp only []
  rw [if_pos hmis]

end MicroIhex

namespace MicroIhex

/-! ### Claim C3: the checksum contract -/

/-- C3: for every byte sequence `b` (0–259 bytes), `checksum b` is the
unique byte `v` with `(sum b + v) % 256 = 0`; `checksum [] = 0`; and the
sum of `b ++ [checksum b]` is 0 mod 256. -/
theorem checksum_contract (b : List Nat) (_hb : ∀ x ∈ b, x < 256)
    (_hlen : b.length ≤ 259) :
    checksum b < 256 ∧
    (b.sum + checksum b) % 256 = 0 ∧
    (∀ v, v < 256 → (b.sum + v) % 256 = 0 → v = checksum b) ∧
    checksum ([] : List Nat) = 0 ∧
    (b ++ [checksum b]).sum % 256 = 0 := by
  refine ⟨checksum_lt b, sum_add_checksum b, ?_, rfl, ?_⟩
  · intro v hv hz
    have := checksum_eq b
    omega
  · rw [List.sum_append, List.sum_cons, List.sum_nil]
    have := sum_add_checksum b
    omega

/-- C3 witness: the contract instantiated at `b = [1, 2, 250]`. -/
theorem checksum_contract_witness :
    checksum [1, 2, 250] < 256 ∧
    ([1, 2, 250] : List Nat).sum % 256 = 253 ∧
    (([1, 2, 250] : List Nat).sum + checksum [1, 2, 250]) % 256 = 0 := by
  have h := checksum_contract [1, 2, 250] (by decide) (by decide)
  exact ⟨h.1, by decide, h.2.1⟩

/-! ### Claim C2: panics on malformed input -/

/-- C2 (refuted by the code): `parse` panics — it does not return an
error value — on an empty line, on a line of only the marker, on a line
whose decoded length exceeds the 512-byte scratch buffer, and on a
checksum-valid `ExtendedSegmentAddress` record whose payload is shorter
than 2 bytes; `serialize` likewise panics on an undersized destination
buffer instead of reporting an error. -/
theorem parse_serialize_panics :
    parse [] = .panic ∧
    parse [58] = .panic ∧
    parse (58 :: List.replicate 1100 48) = .panic ∧
    parse (bytesOfString ":00000002FE") = .panic ∧
    IHex.serialize .EndOfFile (List.replicate 5 0) = .panic := by
  refine ⟨rfl, rfl, ?_, by decide, rfl⟩
  show parse (58 :: List.replicate 1100 48) = .panic
  simp only [parse]
  rw [if_neg (by simp), if_pos (by norm_num [List.length_replicate])]

/-! ### Claim C7: serialize and buffer sizes -/

/-- C7 (code defect): on a destination buffer smaller than
`1 + 2*(4 + payload_len + 1)` bytes, `serialize` panics instead of
returning an error value (the undersized-buffer check has an empty
body); on a buffer at least that large it succeeds and returns exactly
that byte count. -/
theorem serialize_undersized_panics :
    IHex.serialize .EndOfFile (List.replicate 10 0) = .panic ∧
    IHex.serialize .EndOfFile (List.replicate 11 0) =
      .ok (bytesOfString ":00000001ff", 11) := by
  exact ⟨rfl, by decide⟩

end MicroIhex

namespace MicroIhex

/-! ### Claim C9: literal scenarios -/

set_option maxRecDepth 4096 in
/-- C9: the six literal lines of the spec decode to the stated records;
serializing the first scenario's `Data` record reproduces the lowercase
line; and `parse` accepts that line with hex digits in either case. -/
theorem literal_scenarios :
    parse (bytesOfString ":0B0010006164647265737320676170A7") =
      .ok (.Data (bytesOfString "address gap" ++ List.replicate 244 0) 11 16) ∧
    parse (bytesOfString ":00000001FF") = .ok .EndOfFile ∧
    parse (bytesOfString ":0200000212FEEC") = .ok (.ExtendedSegmentAddress 0x12FE) ∧
    parse (bytesOfString ":04000003123438007B") =
      .ok (.StartSegmentAddress 0x1234 0x3800) ∧
    parse (bytesOfString ":02000004ABCD82") = .ok (.ExtendedLinearAddress 0xABCD) ∧
    parse (bytesOfString ":0400000512345678E3") = .ok (.StartLinearAddress 0x12345678) ∧
    IHex.serialize (.Data (bytesOfString "address gap" ++ List.replicate 244 0) 11 16)
      (List.replicate 33 0) =
      .ok (bytesOfString ":0b0010006164647265737320676170a7", 33) ∧
    parse (bytesOfString ":0b0010006164647265737320676170a7") =
      .ok (.Data (bytesOfString "address gap" ++ List.replicate 244 0) 11 16) := by
  refine ⟨by decide, by decide, by decide, by decide, by decide, by decide, by decide,
    by decide⟩

end MicroIhex

namespace MicroIhex

theorem parseDecoded_shortBody (d : List Nat) (hne : d ≠ [])
    (hck : checksum d.dropLast = d.getLastD 0) (hlen : d.dropLast.length < 4) :
    parseDecoded d = .panic := by
  unfold parseDecoded
  rw [if_neg (fun hh => hne (List.length_eq_zero.mp hh))]
  simp only []
  rw [if_neg (by simpa using hck), if_pos hlen]

theorem parseDecoded_record (d : List Nat) (hne : d ≠ [])
    (hck : checksum d.dropLast = d.getLastD 0) (hlen : 4 ≤ d.dropLast.length) :
    parseDecoded d = parseRecord (d.dropLast.getD 0 0)
      (256 * d.dropLast.getD 1 0 + d.dropLast.getD 2 0)
      (d.dropLast.getD 3 0) (d.dropLast.drop 4) := by
  unfold parseDecoded
  rw [if_neg (fun hh => hne (List.length_eq_zero.mp hh))]
  simp only []
  rw [if_neg (by simpa using hck), if_neg (by omega)]

theorem parseRecord_badLength (length address record_type : Nat) (data : List Nat)
    (h : data.length ≠ length) :
    parseRecord length address record_type data = .err .BadLength := by
  unfold parseRecord
  rw [if_pos h]

theorem parseRecord_dataCase (length address : Nat) (data : List Nat)
    (h : data.length = length) :
    parseRecord length address 0 data =
      .ok (.Data (data ++ List.replicate (255 - data.length) 0) length address) := by
  unfold parseRecord
  rw [if_neg (by omega)]
  norm_num [types.DATA, types.END_OF_FILE, types.EXTENDED_SEGMENT_ADDRESS,
    types.START_SEGMENT_ADDRESS, types.EXTENDED_LINEAR_ADDRESS, types.START_LINEAR_ADDRESS]

theorem parseRecord_eofCase (length address : Nat) (data : List Nat)
    (h : data.length = length) :
    parseRecord length address 1 data = .ok .EndOfFile := by
  unfold parseRecord
  rw [if_neg (by omega)]
  norm_num [types.DATA, types.END_OF_FILE, types.EXTENDED_SEGMENT_ADDRESS,
    types.START_SEGMENT_ADDRESS, types.EXTENDED_LINEAR_ADDRESS, types.START_LINEAR_ADDRESS]

theorem parseRecord_esaCase (length address : Nat) (data : List Nat)
    (h : data.length = length) :
    parseRecord length address 2 data =
      (if data.length < 2 then .panic
       else .ok (.ExtendedSegmentAddress (256 * data.getD 0 0 + data.getD 1 0))) := by
  unfold parseRecord
  rw [if_neg (by omega)]
  norm_num [types.DATA, types.END_OF_FILE, types.EXTENDED_SEGMENT_ADDRESS,
    types.START_SEGMENT_ADDRESS, types.EXTENDED_LINEAR_ADDRESS, types.START_LINEAR_ADDRESS]

theorem parseRecord_ssaCase (length address : Nat) (data : List Nat)
    (h : data.length = length) :
    parseRecord length address 3 data =
      (if data.length < 4 then .panic
       else .ok (.StartSegmentAddress (256 * data.getD 0 0 + data.getD 1 0)
         (256 * data.getD 2 0 + data.getD 3 0))) := by
  unfold parseRecord
  rw [if_neg (by omega)]
  norm_num [types.DATA, types.END_OF_FILE, types.EXTENDED_SEGMENT_ADDRESS,
    types.START_SEGMENT_ADDRESS, types.EXTENDED_LINEAR_ADDRESS, types.START_LINEAR_ADDRESS]

theorem parseRecord_elaCase (length address : Nat) (data : List Nat)
    (h : data.length = length) :
    parseRecord length address 4 data =
      (if data.length < 2 then .panic
       else .ok (.ExtendedLinearAddress (256 * data.getD 0 0 + data.getD 1 0))) := by
  unfold parseRecord
  rw [if_neg (by omega)]
  norm_num [types.DATA, types.END_OF_FILE, types.EXTENDED_SEGMENT_ADDRESS,
    types.START_SEGMENT_ADDRESS, types.EXTENDED_LINEAR_ADDRESS, types.START_LINEAR_ADDRESS]

theorem parseRecord_slaCase (length address : Nat) (data : List Nat)
    (h : data.length = length) :
    parseRecord length address 5 data =
      (if data.length < 4 then .panic
       else .ok (.StartLinearAddress (16777216 * data.getD 0 0 +
         65536 * data.getD 1 0 + 256 * data.getD 2 0 + data.getD 3 0))) := by
  unfold parseRecord
  rw [if_neg (by omega)]
  norm_num [types.DATA, types.END_OF_FILE, types.EXTENDED_SEGMENT_ADDRESS,
    types.START_SEGMENT_ADDRESS, types.EXTENDED_LINEAR_ADDRESS, types.START_LINEAR_ADDRESS]

theorem parseRecord_badType (length address record_type : Nat) (data : List Nat)
    (h : data.length = length) (ht : 6 ≤ record_type) :
    parseRecord length address record_type data = .err .BadType := by
  unfold parseRecord
  simp only [types.DATA, types.END_OF_FILE, types.EXTENDED_SEGMENT_ADDRESS,
    types.START_SEGMENT_ADDRESS, types.EXTENDED_LINEAR_ADDRESS, types.START_LINEAR_ADDRESS]
  rw [if_neg (by omega), if_neg (by omega), if_neg (by omega), if_neg (by omega),
    if_neg (by omega), if_neg (by omega), if_neg (by omega)]

end MicroIhex

namespace MicroIhex

theorem getD_lt_of_all_lt (l : List Nat) (i : Nat) (hl : ∀ b ∈ l, b < 256) :
    l.getD i 0 < 256 := by
  by_cases hi : i < l.length
  · rw [List.getD_eq_getElem l 0 hi]
    exact hl _ (List.getElem_mem hi)
  · rw [List.getD_eq_default l 0 (by omega)]
    omega

theorem mem_of_mem_dropLast (l : List Nat) (b : Nat) (h : b ∈ l.dropLast) : b ∈ l :=
  (List.dropLast_sublist l).mem h

theorem parse_ok_inv (line : List Nat) (r : IHex) (h : parse line = .ok r) :
    ∃ rest d, line = 58 :: rest ∧ hexDecodeList rest = some d ∧
      d.length ≤ 512 ∧ parseDecoded d = .ok r := by
  match line with
  | [] => exact absurd h (by simp [parse])
  | c :: rest =>
    simp only [parse] at h
    split at h
    · exact absurd h (by simp)
    · split at h
      · exact absurd h (by simp)
      · rename_i hc hlen
        split at h
        · exact absurd h (by simp)
        · rename_i d hd
          refine ⟨rest, d, ?_, hd, ?_, h⟩
          · simp at hc; rw [hc]
          · have := hexDecodeList_length _ _ hd
            omega

theorem parseRecord_length_of_ok (length address record_type : Nat) (data : List Nat)
    (r : IHex) (h : parseRecord length address record_type data = .ok r) :
    data.length = length := by
  by_cases hl : data.length = length
  · exact hl
  · rw [parseRecord_badLength _ _ _ _ hl] at h
    exact RResult.noConfusion h

theorem parseDecoded_ok_inv (d : List Nat) (r : IHex) (h : parseDecoded d = .ok r) :
    d ≠ [] ∧ checksum d.dropLast = d.getLastD 0 ∧ 4 ≤ d.dropLast.length ∧
      parseRecord (d.dropLast.getD 0 0)
        (256 * d.dropLast.getD 1 0 + d.dropLast.getD 2 0)
        (d.dropLast.getD 3 0) (d.dropLast.drop 4) = .ok r := by
  have hne : d ≠ [] := by
    rintro rfl
    rw [show parseDecoded [] = .panic from rfl] at h
    exact RResult.noConfusion h
  by_cases hck : checksum d.dropLast = d.getLastD 0
  · by_cases hlen : d.dropLast.length < 4
    · rw [parseDecoded_shortBody d hne hck hlen] at h
      exact RResult.noConfusion h
    · rw [parseDecoded_record d hne hck (by omega)] at h
      exact ⟨hne, hck, by omega, h⟩
  · rw [parseDecoded_badChecksum d hne hck] at h
    exact RResult.noConfusion h

theorem parseRecord_ok_data_inv (l a t : Nat) (data bytes : List Nat)
    (length offset : Nat)
    (h : parseRecord l a t data = .ok (.Data bytes length offset)) :
    data.length = l ∧ l = length ∧ a = offset ∧ t = 0 ∧
      bytes = data ++ List.replicate (255 - length) 0 := by
  have hl := parseRecord_length_of_ok _ _ _ _ _ h
  by_cases h0 : t = 0
  · subst h0
    rw [parseRecord_dataCase _ _ _ hl] at h
    simp only [RResult.ok.injEq, IHex.Data.injEq] at h
    obtain ⟨hb, hlen, ho⟩ := h
    subst hlen
    exact ⟨hl, rfl, ho, rfl, by rw [← hb, hl]⟩
  · exfalso
    by_cases h1 : t = 1
    · subst h1; rw [parseRecord_eofCase _ _ _ hl] at h; simp at h
    by_cases h2 : t = 2
    · subst h2; rw [parseRecord_esaCase _ _ _ hl] at h
      split at h <;> simp at h
    by_cases h3 : t = 3
    · subst h3; rw [parseRecord_ssaCase _ _ _ hl] at h
      split at h <;> simp at h
    by_cases h4 : t = 4
    · subst h4; rw [parseRecord_elaCase _ _ _ hl] at h
      split at h <;> simp at h
    by_cases h5 : t = 5
    · subst h5; rw [parseRecord_slaCase _ _ _ hl] at h
      split at h <;> simp at h
    rw [parseRecord_badType _ _ _ _ hl (by omega)] at h
    simp at h

end MicroIhex

namespace MicroIhex

/-- C4: for a line passing the marker and hex-decoding stages, the last
decoded byte is the expected checksum; the checksum primitive runs over
all decoded bytes but the last; a mismatch fails with `BadChecksum`
carrying the computed value first and the expected value second, with
no hypothesis on the length or type fields (the check precedes both
validations). -/
theorem parse_checksum_stage (rest d : List Nat)
    (hdec : hexDecodeList rest = some d) (hlen : d.length ≤ 512) (hne : d ≠ [])
    (hmis : checksum d.dropLast ≠ d.getLastD 0) :
    parse (58 :: rest) = .err (.BadChecksum (checksum d.dropLast) (d.getLastD 0)) := by
  rw [parse_decode rest d hdec hlen]
  exact parseDecoded_badChecksum d hne hmis

/-- C4 witness: the line `:00000001FE` (an EndOfFile record with a
corrupted checksum byte) fails with `BadChecksum 255 254`. -/
theorem parse_checksum_stage_witness :
    parse (58 :: bytesOfString "00000001FE") = .err (.BadChecksum 255 254) :=
  parse_checksum_stage (bytesOfString "00000001FE") [0, 0, 0, 1, 254]
    (by decide) (by decide) (by decide) (by decide)

/-- C10: a successful `Data` decode zero-fills the payload array beyond
the record's length field, so two decoded `Data` records are equal
exactly when their length, offset, and first `length` payload bytes
agree. -/
theorem parse_data_zero_fill (line line2 bytes bytes2 : List Nat)
    (length offset length2 offset2 : Nat)
    (h : parse line = .ok (.Data bytes length offset))
    (h2 : parse line2 = .ok (.Data bytes2 length2 offset2)) :
    bytes.length = 255 ∧ bytes.drop length = List.replicate (255 - length) 0 ∧
    ((IHex.Data bytes length offset = IHex.Data bytes2 length2 offset2) ↔
      (length = length2 ∧ offset = offset2 ∧
        bytes.take length = bytes2.take length2)) := by
  obtain ⟨rest, d, -, hd, -, hpd⟩ := parse_ok_inv _ _ h
  obtain ⟨-, -, -, hrec⟩ := parseDecoded_ok_inv _ _ hpd
  obtain ⟨hdl, hll, -, -, hb⟩ := parseRecord_ok_data_inv _ _ _ _ _ _ _ hrec
  obtain ⟨rest2, d2, -, hd2, -, hpd2⟩ := parse_ok_inv _ _ h2
  obtain ⟨-, -, -, hrec2⟩ := parseDecoded_ok_inv _ _ hpd2
  obtain ⟨hdl2, hll2, -, -, hb2⟩ := parseRecord_ok_data_inv _ _ _ _ _ _ _ hrec2
  have hlt : length < 256 := by
    rw [← hll]
    exact getD_lt_of_all_lt _ _
      (fun b hb => hexDecodeList_lt _ _ hd b (mem_of_mem_dropLast _ _ hb))
  have hdatalen : (d.dropLast.drop 4).length = length := by omega
  have hdatalen2 : (d2.dropLast.drop 4).length = length2 := by omega
  have hblen : bytes.length = 255 := by
    rw [hb]
    simp [hdatalen]
    omega
  have htake : bytes.take length = d.dropLast.drop 4 := by
    rw [hb, ← hdatalen, List.take_left]
  have htake2 : bytes2.take length2 = d2.dropLast.drop 4 := by
    rw [hb2, ← hdatalen2, List.take_left]
  refine ⟨hblen, ?_, ?_⟩
  · rw [hb, ← hdatalen, List.drop_left]
  · constructor
    · intro he
      simp only [IHex.Data.injEq] at he
      exact ⟨he.2.1, he.2.2, by rw [he.1, he.2.1]⟩
    · rintro ⟨hl, ho, ht⟩
      subst hl
      subst ho
      simp only [IHex.Data.injEq, and_true]
      rw [hb, hb2]
      rw [htake, htake2] at ht
      rw [ht]

end MicroIhex

namespace MicroIhex

set_option maxRecDepth 4096 in
/-- C10 witness: instantiated at the `address gap` data line and a
zero-length data line. -/
theorem parse_data_zero_fill_witness :
    (bytesOfString "address gap" ++ List.replicate 244 0).length = 255 ∧
    (bytesOfString "address gap" ++ List.replicate 244 0).drop 11 =
      List.replicate (255 - 11) 0 ∧
    ((IHex.Data (bytesOfString "address gap" ++ List.replicate 244 0) 11 16 =
        IHex.Data (List.replicate 255 0) 0 0) ↔
      (11 = 0 ∧ 16 = 0 ∧
        (bytesOfString "address gap" ++ List.replicate 244 0).take 11 =
          (List.replicate 255 0).take 0)) :=
  parse_data_zero_fill (bytesOfString ":0B0010006164647265737320676170A7")
    (bytesOfString ":0000000000") _ _ _ _ _ _ (by decide) (by decide)

end MicroIhex

namespace MicroIhex


/-- C8 counterexample: the line of 1026 zero digits decodes to 513
bytes; `parse` panics on it rather than rejecting it with an error. -/
theorem parse_overlong_counterexample :
    parse (58 :: List.replicate 1026 48) = .panic ∧
    ∀ e, parse (58 :: List.replicate 1026 48) ≠ .err e := by
  have hp : parse (58 :: List.replicate 1026 48) = .panic := by
    simp only [parse]
    rw [if_neg (by simp), if_pos (by norm_num [List.length_replicate])]
  exact ⟨hp, fun e he => by rw [hp] at he; exact RResult.noConfusion he⟩

/-- C8 amended: a line whose body decodes to more than 260 and at most
512 bytes is rejected with an error value (`BadChecksum` or
`BadLength`); the scratch buffer of the code is 512 bytes, not 260, and
a body decoding to more than 512 bytes panics instead (see the
counterexample). -/
theorem parse_overlong_rejected (rest d : List Nat)
    (hdec : hexDecodeList rest = some d) (hlo : 260 < d.length)
    (hhi : d.length ≤ 512) :
    ∃ e, parse (58 :: rest) = .err e := by
  rw [parse_decode rest d hdec hhi]
  have hne : d ≠ [] := by rintro rfl; simp at hlo
  by_cases hck : checksum d.dropLast = d.getLastD 0
  · have hdll := List.length_dropLast d
    rw [parseDecoded_record d hne hck (by omega)]
    refine ⟨.BadLength, parseRecord_badLength _ _ _ _ ?_⟩
    have hdecl : d.dropLast.getD 0 0 < 256 :=
      getD_lt_of_all_lt _ _
        (fun b hb => hexDecodeList_lt _ _ hdec b (mem_of_mem_dropLast _ _ hb))
    have hdl : (d.dropLast.drop 4).length = d.dropLast.length - 4 :=
      List.length_drop _ _
    omega
  · exact ⟨_, parseDecoded_badChecksum d hne hck⟩

set_option maxRecDepth 16384 in
/-- C8 amended witness: a line of 522 zero digits (261 decoded bytes,
valid checksum) is rejected with an error. -/
theorem parse_overlong_rejected_witness :
    ∃ e, parse (58 :: List.replicate 522 48) = .err e :=
  parse_overlong_rejected (List.replicate 522 48) (List.replicate 261 0)
    (by decide) (by decide) (by decide)

end MicroIhex

namespace MicroIhex

/-! ### Lemmas for the error-mapping claim -/

theorem hexDecodeList_odd : ∀ (l : List Nat), l.length % 2 = 1 → hexDecodeList l = none
  | [], h => by simp at h
  | [_], _ => rfl
  | hi :: lo :: rest, h => by
    have hr : rest.length % 2 = 1 := by
      simp only [List.length_cons] at h
      omega
    unfold hexDecodeList
    rw [hexDecodeList_odd rest hr]
    cases hexVal hi <;> cases hexVal lo <;> rfl

theorem hexDecodeList_badChar : ∀ (l : List Nat) (c : Nat), c ∈ l → hexVal c = none →
    hexDecodeList l = none
  | [], c, hc, _ => absurd hc (by simp)
  | [_], _, _, _ => rfl
  | hi :: lo :: rest, c, hc, hval => by
    unfold hexDecodeList
    rcases List.mem_cons.mp hc with rfl | hc2
    · rw [hval]
    · rcases List.mem_cons.mp hc2 with rfl | hc3
      · rw [hval]
        try cases hexVal hi <;> rfl
      · rw [hexDecodeList_badChar rest c hc3 hval]
        try cases hexVal hi <;> cases hexVal lo <;> rfl

theorem eq_dropLast_concat (l : List Nat) (h : l ≠ []) :
    l = l.dropLast ++ [l.getLastD 0] := by
  rcases List.eq_nil_or_concat l with rfl | ⟨L, b, rfl⟩
  · exact absurd rfl h
  · simp only [List.concat_eq_append]
    rw [List.dropLast_concat]
    simp [List.getLastD_concat]

theorem sum_set_getD : ∀ (l : List Nat) (i v : Nat), i < l.length →
    (l.set i v).sum + l.getD i 0 = l.sum + v
  | [], _, _, h => by simp at h
  | a :: t, 0, v, _ => by
    simp only [List.set_cons_zero, List.sum_cons, List.getD_cons_zero]
    omega
  | a :: t, i + 1, v, h => by
    simp only [List.set_cons_succ, List.sum_cons, List.getD_cons_succ]
    have := sum_set_getD t i v (by simpa using Nat.lt_of_succ_lt_succ h)
    omega

theorem set_all_lt (l : List Nat) (i v : Nat) (hv : v < 256) (hl : ∀ b ∈ l, b < 256) :
    ∀ b ∈ l.set i v, b < 256 := by
  intro b hb
  rcases List.mem_or_eq_of_mem_set hb with hb | rfl
  · exact hl b hb
  · exact hv

end MicroIhex

namespace MicroIhex

/-- C5 amended: the error mapping of `parse`, short-circuiting in order —
a nonempty line whose first byte is not the marker gives `MissingColon`;
an odd-length or non-hex body whose decoded size fits the 512-byte
scratch buffer gives `ParseError` (beyond the scratch the code panics,
see the counterexample); changing any single decoded byte other than the
trailing checksum byte of a successfully parsed line gives
`BadChecksum`; a declared length differing from the actual payload byte
count gives `BadLength`; a checksum-valid, length-consistent line with a
type tag in `0x06`..`0xFF` gives `BadType`. -/
theorem parse_error_mapping :
    (∀ c rest, c < 256 → c ≠ 58 → parse (c :: rest) = .err .MissingColon) ∧
    (∀ rest, rest.length / 2 ≤ 512 →
      (rest.length % 2 = 1 ∨ ∃ c ∈ rest, hexVal c = none) →
      parse (58 :: rest) = .err .ParseError) ∧
    (∀ rest d r i v, parse (58 :: rest) = .ok r → hexDecodeList rest = some d →
      i + 1 < d.length → v < 256 → v ≠ d.getD i 0 →
      ∃ cv ev, parse (58 :: hexEncode (d.set i v)) = .err (.BadChecksum cv ev)) ∧
    (∀ rest d, hexDecodeList rest = some d → d.length ≤ 512 → 5 ≤ d.length →
      checksum d.dropLast = d.getLastD 0 → d.dropLast.getD 0 0 ≠ d.length - 5 →
      parse (58 :: rest) = .err .BadLength) ∧
    (∀ rest d, hexDecodeList rest = some d → d.length ≤ 512 → 5 ≤ d.length →
      checksum d.dropLast = d.getLastD 0 → d.dropLast.getD 0 0 = d.length - 5 →
      6 ≤ d.dropLast.getD 3 0 → parse (58 :: rest) = .err .BadType) := by
  refine ⟨?_, ?_, ?_, ?_, ?_⟩
  · intro c rest _ hc
    simp only [parse]
    rw [if_pos hc]
  · intro rest hlen hbad
    have hnone : hexDecodeList rest = none := by
      rcases hbad with hodd | ⟨c, hc, hval⟩
      · exact hexDecodeList_odd rest hodd
      · exact hexDecodeList_badChar rest c hc hval
    simp only [parse]
    rw [if_neg (by simp), if_neg (by omega), hnone]
  · intro rest d r i v hok hdec hi hv hne
    obtain ⟨rest', d', heq, hdec', hlen', hpd⟩ := parse_ok_inv _ _ hok
    have hrr : rest = rest' := by
      injection heq with _ h
    subst hrr
    rw [hdec] at hdec'
    injection hdec' with hdd
    subst hdd
    obtain ⟨hdne, hck, -, -⟩ := parseDecoded_ok_inv _ _ hpd
    have hall : ∀ b ∈ d, b < 256 := hexDecodeList_lt _ _ hdec
    have hdlast := List.length_dropLast d
    have hdlen : i < d.dropLast.length := by omega
    have hdecomp : d = d.dropLast ++ [d.getLastD 0] := eq_dropLast_concat d hdne
    have hset : d.set i v = d.dropLast.set i v ++ [d.getLastD 0] := by
      conv_lhs => rw [hdecomp]
      exact List.set_append_left _ _ hdlen
    have hgd : d.getD i 0 = d.dropLast.getD i 0 := by
      conv_lhs => rw [hdecomp]
      exact List.getD_append _ _ _ _ hdlen
    have hall2 : ∀ b ∈ d.set i v, b < 256 := set_all_lt d i v hv hall
    have hlen2 : (d.set i v).length = d.length := List.length_set d i v
    have hdec2 : hexDecodeList (hexEncode (d.set i v)) = some (d.set i v) :=
      hexDecode_hexEncode _ hall2
    have hne2 : d.set i v ≠ [] := by
      intro hh
      rw [hh] at hlen2
      simp at hlen2
      omega
    have hdl2 : (d.set i v).dropLast = d.dropLast.set i v := by
      rw [hset, List.dropLast_concat]
    have hlast2 : (d.set i v).getLastD 0 = d.getLastD 0 := by
      rw [hset]
      simp [List.getLastD_concat]
    have hsum := sum_set_getD d.dropLast i v hdlen
    have hbi : d.dropLast.getD i 0 < 256 :=
      getD_lt_of_all_lt _ _ (fun b hb => hall b (mem_of_mem_dropLast _ _ hb))
    have hmis : checksum (d.set i v).dropLast ≠ (d.set i v).getLastD 0 := by
      rw [hdl2, hlast2, ← hck, checksum_eq, checksum_eq]
      rw [hgd] at hne
      intro hcontra
      omega
    refine ⟨checksum (d.set i v).dropLast, (d.set i v).getLastD 0, ?_⟩
    rw [parse_decode (hexEncode (d.set i v)) (d.set i v) hdec2 (by omega)]
    exact parseDecoded_badChecksum _ hne2 hmis
  · intro rest d hdec hhi h5 hck hdecl
    have hne : d ≠ [] := by rintro rfl; simp at h5
    have hdlast := List.length_dropLast d
    rw [parse_decode rest d hdec hhi, parseDecoded_record d hne hck (by omega)]
    refine parseRecord_badLength _ _ _ _ ?_
    have hdl : (d.dropLast.drop 4).length = d.dropLast.length - 4 :=
      List.length_drop _ _
    omega
  · intro rest d hdec hhi h5 hck hdecl htag
    have hne : d ≠ [] := by rintro rfl; simp at h5
    have hdlast := List.length_dropLast d
    rw [parse_decode rest d hdec hhi, parseDecoded_record d hne hck (by omega)]
    refine parseRecord_badType _ _ _ _ ?_ htag
    have hdl : (d.dropLast.drop 4).length = d.dropLast.length - 4 :=
      List.length_drop _ _
    omega

end MicroIhex

namespace MicroIhex

/-- C5 counterexample: the odd-length body of 1027 zero digits makes
`parse` panic (scratch-slice bound), not return `MalformedHex`
(`ParseError`), refuting the unrestricted odd-length clause. -/
theorem parse_error_mapping_counterexample :
    (List.replicate 1027 48).length % 2 = 1 ∧
    parse (58 :: List.replicate 1027 48) = .panic ∧
    parse (58 :: List.replicate 1027 48) ≠ .err .ParseError := by
  have hp : parse (58 :: List.replicate 1027 48) = .panic := by
    simp only [parse]
    rw [if_neg (by simp), if_pos (by norm_num [List.length_replicate])]
  refine ⟨by norm_num [List.length_replicate], hp, fun he => ?_⟩
  rw [hp] at he
  exact RResult.noConfusion he

/-- C5 witness: one concrete line per error class of the mapping. -/
theorem parse_error_mapping_witness :
    parse (65 :: []) = .err .MissingColon ∧
    parse (58 :: [48]) = .err .ParseError ∧
    (∃ cv ev, parse (58 :: hexEncode (([0, 0, 0, 1, 255] : List Nat).set 1 7)) =
      .err (.BadChecksum cv ev)) ∧
    parse (58 :: bytesOfString "01000001FE") = .err .BadLength ∧
    parse (58 :: bytesOfString "00000006FA") = .err .BadType := by
  refine ⟨parse_error_mapping.1 65 [] (by decide) (by decide),
    parse_error_mapping.2.1 [48] (by decide) (Or.inl (by decide)),
    parse_error_mapping.2.2.1 (bytesOfString "00000001FF") [0, 0, 0, 1, 255]
      .EndOfFile 1 7 (by decide) (by decide) (by decide) (by decide) (by decide),
    parse_error_mapping.2.2.2.1 (bytesOfString "01000001FE") [1, 0, 0, 1, 254]
      (by decide) (by decide) (by decide) (by decide) (by decide),
    parse_error_mapping.2.2.2.2 (bytesOfString "00000006FA") [0, 0, 0, 6, 250]
      (by decide) (by decide) (by decide) (by decide) (by decide) (by decide)⟩

end MicroIhex

namespace MicroIhex

theorem getD_drop (l : List Nat) (n i d : Nat) :
    (l.drop n).getD i d = l.getD (n + i) d := by
  simp [List.getD_eq_getElem?_getD, List.getElem?_drop]

/-- C6 counterexample: the checksum-valid line `:03000002AABBCCCA`
declares a 3-byte payload with tag 0x02, yet `parse` succeeds with
`ExtendedSegmentAddress 0xAABB` — a successful record of that type from
a payload that is not exactly 2 bytes wide. -/
theorem parse_address_width_counterexample :
    parse (bytesOfString ":03000002AABBCCCA") =
      .ok (.ExtendedSegmentAddress 0xAABB) := by decide

/-- C6 amended: for tags 0x02–0x05 the decoder reads the leading
fixed-width payload bytes big-endian without checking the payload width
against the type: a checksum-valid, length-consistent line whose payload
is at least the fixed width (2 for tags 0x02/0x04, 4 for 0x03/0x05)
succeeds on the leading bytes, ignoring any extras, and one whose
payload is shorter panics — so a payload below the fixed width never
produces a record, but a wider one does. -/
theorem parse_address_width (rest d : List Nat)
    (hdec : hexDecodeList rest = some d) (hhi : d.length ≤ 512) (h5 : 5 ≤ d.length)
    (hck : checksum d.dropLast = d.getLastD 0)
    (hdecl : d.dropLast.getD 0 0 = d.length - 5) :
    (d.dropLast.getD 3 0 = 2 → 2 ≤ d.length - 5 →
      parse (58 :: rest) = .ok (.ExtendedSegmentAddress
        (256 * d.dropLast.getD 4 0 + d.dropLast.getD 5 0))) ∧
    (d.dropLast.getD 3 0 = 2 → d.length - 5 < 2 → parse (58 :: rest) = .panic) ∧
    (d.dropLast.getD 3 0 = 3 → 4 ≤ d.length - 5 →
      parse (58 :: rest) = .ok (.StartSegmentAddress
        (256 * d.dropLast.getD 4 0 + d.dropLast.getD 5 0)
        (256 * d.dropLast.getD 6 0 + d.dropLast.getD 7 0))) ∧
    (d.dropLast.getD 3 0 = 3 → d.length - 5 < 4 → parse (58 :: rest) = .panic) ∧
    (d.dropLast.getD 3 0 = 4 → 2 ≤ d.length - 5 →
      parse (58 :: rest) = .ok (.ExtendedLinearAddress
        (256 * d.dropLast.getD 4 0 + d.dropLast.getD 5 0))) ∧
    (d.dropLast.getD 3 0 = 4 → d.length - 5 < 2 → parse (58 :: rest) = .panic) ∧
    (d.dropLast.getD 3 0 = 5 → 4 ≤ d.length - 5 →
      parse (58 :: rest) = .ok (.StartLinearAddress
        (16777216 * d.dropLast.getD 4 0 + 65536 * d.dropLast.getD 5 0 +
          256 * d.dropLast.getD 6 0 + d.dropLast.getD 7 0))) ∧
    (d.dropLast.getD 3 0 = 5 → d.length - 5 < 4 → parse (58 :: rest) = .panic) := by
  have hne : d ≠ [] := by rintro rfl; simp at h5
  have hdlast := List.length_dropLast d
  have hdl : (d.dropLast.drop 4).length = d.dropLast.length - 4 := List.length_drop _ _
  have hlen_eq : (d.dropLast.drop 4).length = d.dropLast.getD 0 0 := by omega
  have hstep : parse (58 :: rest) = parseRecord (d.dropLast.getD 0 0)
      (256 * d.dropLast.getD 1 0 + d.dropLast.getD 2 0) (d.dropLast.getD 3 0)
      (d.dropLast.drop 4) := by
    rw [parse_decode rest d hdec hhi, parseDecoded_record d hne hck (by omega)]
  have hg4 : (d.dropLast.drop 4).getD 0 0 = d.dropLast.getD 4 0 := getD_drop _ _ _ _
  have hg5 : (d.dropLast.drop 4).getD 1 0 = d.dropLast.getD 5 0 := getD_drop _ _ _ _
  have hg6 : (d.dropLast.drop 4).getD 2 0 = d.dropLast.getD 6 0 := getD_drop _ _ _ _
  have hg7 : (d.dropLast.drop 4).getD 3 0 = d.dropLast.getD 7 0 := getD_drop _ _ _ _
  refine ⟨?_, ?_, ?_, ?_, ?_, ?_, ?_, ?_⟩ <;> intro htag hw
  · rw [hstep, htag, parseRecord_esaCase _ _ _ hlen_eq, if_neg (by omega), hg4, hg5]
  · rw [hstep, htag, parseRecord_esaCase _ _ _ hlen_eq, if_pos (by omega)]
  · rw [hstep, htag, parseRecord_ssaCase _ _ _ hlen_eq, if_neg (by omega),
      hg4, hg5, hg6, hg7]
  · rw [hstep, htag, parseRecord_ssaCase _ _ _ hlen_eq, if_pos (by omega)]
  · rw [hstep, htag, parseRecord_elaCase _ _ _ hlen_eq, if_neg (by omega), hg4, hg5]
  · rw [hstep, htag, parseRecord_elaCase _ _ _ hlen_eq, if_pos (by omega)]
  · rw [hstep, htag, parseRecord_slaCase _ _ _ hlen_eq, if_neg (by omega),
      hg4, hg5, hg6, hg7]
  · rw [hstep, htag, parseRecord_slaCase _ _ _ hlen_eq, if_pos (by omega)]

/-- C6 amended witness: an exact-width tag-0x02 line succeeds on its two
payload bytes big-endian; a checksum-valid tag-0x03 line with an empty
payload panics. -/
theorem parse_address_width_witness :
    parse (58 :: bytesOfString "0200000212FEEC") =
      .ok (.ExtendedSegmentAddress 4862) ∧
    parse (58 :: bytesOfString "00000003FD") = .panic :=
  ⟨(parse_address_width (bytesOfString "0200000212FEEC")
      [2, 0, 0, 2, 18, 254, 236] (by decide) (by decide) (by decide) (by decide)
      (by decide)).1 (by decide) (by decide),
   (parse_address_width (bytesOfString "00000003FD")
      [0, 0, 0, 3, 253] (by decide) (by decide) (by decide) (by decide)
      (by decide)).2.2.2.1 (by decide) (by decide)⟩

end MicroIhex

namespace MicroIhex

/-! ### Round-trip lemmas -/

theorem parse_format_inv (rt off : Nat) (data buffer : List Nat)
    (hall : ∀ b ∈ data, b < 256) (hdlen : data.length ≤ 255) (hoff : off < 65536)
    (hrt : rt < 256) (hbuf : 2 * (data.length + 5) + 1 ≤ buffer.length) :
    ∃ out, format rt off data buffer = .ok (out, 2 * (data.length + 5) + 1) ∧
      parse (out.take (2 * (data.length + 5) + 1)) =
        parseRecord data.length off rt data := by
  set record : List Nat :=
    [data.length % 256, off / 256 % 256, off % 256, rt % 256] ++ data with hrec
  set rb : List Nat := record ++ [checksum record] with hrb
  have hreclen : record.length = data.length + 4 := by
    rw [hrec]; simp
  have hrblen : rb.length = data.length + 5 := by
    rw [hrb]; simp [hreclen]
  have hline : (58 :: hexEncode rb).length = 2 * (data.length + 5) + 1 := by
    simp [hexEncode_length, hrblen]
  refine ⟨(58 :: hexEncode rb) ++ buffer.drop (2 * (data.length + 5) + 1), ?_, ?_⟩
  · unfold format
    rw [if_neg (by omega)]
  · have htake : ((58 :: hexEncode rb) ++
        buffer.drop (2 * (data.length + 5) + 1)).take (2 * (data.length + 5) + 1) =
        58 :: hexEncode rb := by
      rw [← hline]
      exact List.take_left _ _
    have hallrb : ∀ b ∈ rb, b < 256 := by
      intro b hb
      rw [hrb, hrec] at hb
      simp only [List.cons_append, List.nil_append, List.mem_append, List.mem_cons,
        List.not_mem_nil, or_false, List.mem_singleton] at hb
      rcases hb with rfl | rfl | rfl | rfl | hbd | rfl
      · exact Nat.mod_lt _ (by omega)
      · exact Nat.mod_lt _ (by omega)
      · exact Nat.mod_lt _ (by omega)
      · exact Nat.mod_lt _ (by omega)
      · exact hall b hbd
      · exact checksum_lt _
    have hdecode : hexDecodeList (hexEncode rb) = some rb := hexDecode_hexEncode rb hallrb
    have hparse1 : parse (58 :: hexEncode rb) = parseDecoded rb :=
      parse_decode _ _ hdecode (by omega)
    have hdropLast : rb.dropLast = record := by
      rw [hrb]; exact List.dropLast_concat
    have hlast : rb.getLastD 0 = checksum record := by
      rw [hrb]; simp [List.getLastD_concat]
    have hne : rb ≠ [] := by
      intro hh
      rw [hh] at hrblen
      simp at hrblen
    have hparse2 : parseDecoded rb = parseRecord (record.getD 0 0)
        (256 * record.getD 1 0 + record.getD 2 0) (record.getD 3 0)
        (record.drop 4) := by
      have hstep := parseDecoded_record rb hne (by rw [hdropLast, hlast])
        (by rw [hdropLast]; omega)
      rw [hstep, hdropLast]
    have hg0 : record.getD 0 0 = data.length := by
      rw [hrec]
      simp [List.getD_cons_zero]
      omega
    have hg1 : record.getD 1 0 = off / 256 % 256 := by
      rw [hrec]; rfl
    have hg2 : record.getD 2 0 = off % 256 := by
      rw [hrec]; rfl
    have hg3 : record.getD 3 0 = rt := by
      rw [hrec]
      simp [List.getD_cons_succ, List.getD_cons_zero]
      omega
    have hg4 : record.drop 4 = data := by
      rw [hrec]; rfl
    have haddr : 256 * (off / 256 % 256) + off % 256 = off := by omega
    rw [htake, hparse1, hparse2, hg0, hg1, hg2, hg3, hg4, haddr]

end MicroIhex

namespace MicroIhex

/-- C1 amended: every canonical record — well formed, and with the
`Data` payload array zero beyond the length field — round-trips:
serializing into a large-enough buffer succeeds with exactly
`serializedLen` bytes written, and parsing those bytes returns the
original record. -/
theorem serialize_parse_roundtrip (r : IHex) (buffer : List Nat)
    (hc : r.canonical) (hbuf : r.serializedLen ≤ buffer.length) :
    ∃ out, IHex.serialize r buffer = .ok (out, r.serializedLen) ∧
      parse (out.take r.serializedLen) = .ok r := by
  obtain ⟨hwf, hcan⟩ := hc
  cases r with
  | Data bytes length offset =>
    obtain ⟨hblen, hball, hlen, hoff⟩ := hwf
    have hdlen : (bytes.take length).length = length := by
      rw [List.length_take]; omega
    have hall : ∀ b ∈ bytes.take length, b < 256 :=
      fun b hb => hball b (List.mem_of_mem_take hb)
    have hsl : (IHex.Data bytes length offset).serializedLen =
        2 * ((bytes.take length).length + 5) + 1 := by
      simp only [IHex.serializedLen, IHex.payloadLen, hdlen]
      omega
    obtain ⟨out, hfmt, hparse⟩ := parse_format_inv 0 offset (bytes.take length) buffer
      hall (by omega) hoff (by omega) (by omega)
    have hbytes : bytes.take length ++ List.replicate (255 - length) 0 = bytes := by
      rw [← hcan]
      exact List.take_append_drop _ _
    refine ⟨out, ?_, ?_⟩
    · rw [show IHex.serialize (.Data bytes length offset) buffer =
          format 0 offset (bytes.take length) buffer from rfl, hfmt, hsl]
    · rw [hsl, hparse, parseRecord_dataCase _ _ _ rfl, hdlen, hbytes]
  | EndOfFile =>
    obtain ⟨out, hfmt, hparse⟩ := parse_format_inv 1 0 [] buffer
      (by simp) (by simp) (by omega) (by omega)
      (by simpa [IHex.serializedLen, IHex.payloadLen] using hbuf)
    refine ⟨out, ?_, ?_⟩
    · exact hfmt
    · rw [show (IHex.EndOfFile).serializedLen = 2 * (([] : List Nat).length + 5) + 1
          from rfl, hparse, parseRecord_eofCase _ _ _ rfl]
  | ExtendedSegmentAddress a =>
    have ha : a < 65536 := hwf
    obtain ⟨out, hfmt, hparse⟩ := parse_format_inv 2 0 [a / 256 % 256, a % 256] buffer
      (by intro b hb; simp at hb; rcases hb with rfl | rfl <;> exact Nat.mod_lt _ (by omega))
      (by simp) (by omega) (by omega)
      (by simpa [IHex.serializedLen, IHex.payloadLen] using hbuf)
    refine ⟨out, ?_, ?_⟩
    · exact hfmt
    · rw [show (IHex.ExtendedSegmentAddress a).serializedLen =
          2 * (([a / 256 % 256, a % 256] : List Nat).length + 5) + 1 from rfl,
        hparse, parseRecord_esaCase _ _ _ rfl, if_neg (by norm_num)]
      have hrec : 256 * (a / 256 % 256) + a % 256 = a := by omega
      simp only [List.getD_cons_zero, List.getD_cons_succ]
      rw [hrec]
  | StartSegmentAddress cs ip =>
    obtain ⟨hcs, hip⟩ := hwf
    obtain ⟨out, hfmt, hparse⟩ := parse_format_inv 3 0
      [cs / 256 % 256, cs % 256, ip / 256 % 256, ip % 256] buffer
      (by intro b hb; simp at hb
          rcases hb with rfl | rfl | rfl | rfl <;> exact Nat.mod_lt _ (by omega))
      (by simp) (by omega) (by omega)
      (by simpa [IHex.serializedLen, IHex.payloadLen] using hbuf)
    refine ⟨out, ?_, ?_⟩
    · exact hfmt
    · rw [show (IHex.StartSegmentAddress cs ip).serializedLen =
          2 * (([cs / 256 % 256, cs % 256, ip / 256 % 256, ip % 256] : List Nat).length
            + 5) + 1 from rfl,
        hparse, parseRecord_ssaCase _ _ _ rfl, if_neg (by norm_num)]
      have hrec1 : 256 * (cs / 256 % 256) + cs % 256 = cs := by omega
      have hrec2 : 256 * (ip / 256 % 256) + ip % 256 = ip := by omega
      simp only [List.getD_cons_zero, List.getD_cons_succ]
      rw [hrec1, hrec2]
  | ExtendedLinearAddress a =>
    have ha : a < 65536 := hwf
    obtain ⟨out, hfmt, hparse⟩ := parse_format_inv 4 0 [a / 256 % 256, a % 256] buffer
      (by intro b hb; simp at hb; rcases hb with rfl | rfl <;> exact Nat.mod_lt _ (by omega))
      (by simp) (by omega) (by omega)
      (by simpa [IHex.serializedLen, IHex.payloadLen] using hbuf)
    refine ⟨out, ?_, ?_⟩
    · exact hfmt
    · rw [show (IHex.ExtendedLinearAddress a).serializedLen =
          2 * (([a / 256 % 256, a % 256] : List Nat).length + 5) + 1 from rfl,
        hparse, parseRecord_elaCase _ _ _ rfl, if_neg (by norm_num)]
      have hrec : 256 * (a / 256 % 256) + a % 256 = a := by omega
      simp only [List.getD_cons_zero, List.getD_cons_succ]
      rw [hrec]
  | StartLinearAddress a =>
    have ha : a < 4294967296 := hwf
    obtain ⟨out, hfmt, hparse⟩ := parse_format_inv 5 0
      [a / 16777216 % 256, a / 65536 % 256, a / 256 % 256, a % 256] buffer
      (by intro b hb; simp at hb
          rcases hb with rfl | rfl | rfl | rfl <;> exact Nat.mod_lt _ (by omega))
      (by simp) (by omega) (by omega)
      (by simpa [IHex.serializedLen, IHex.payloadLen] using hbuf)
    refine ⟨out, ?_, ?_⟩
    · exact hfmt
    · rw [show (IHex.StartLinearAddress a).serializedLen =
          2 * (([a / 16777216 % 256, a / 65536 % 256, a / 256 % 256, a % 256] :
            List Nat).length + 5) + 1 from rfl,
        hparse, parseRecord_slaCase _ _ _ rfl, if_neg (by norm_num)]
      have hrec : 16777216 * (a / 16777216 % 256) + 65536 * (a / 65536 % 256) +
          256 * (a / 256 % 256) + a % 256 = a := by omega
      simp only [List.getD_cons_zero, List.getD_cons_succ]
      rw [hrec]

end MicroIhex

namespace MicroIhex

set_option maxRecDepth 8192 in
/-- C1 counterexample: the constructible `Data` record with a nonzero
byte beyond its length field does not round-trip — the decoder
zero-fills the tail, so decode (encode r) succeeds but with a different
record. -/
theorem serialize_parse_roundtrip_counterexample :
    IHex.WF (.Data (1 :: List.replicate 254 0) 0 0) ∧
    IHex.serialize (.Data (1 :: List.replicate 254 0) 0 0) (List.replicate 11 0) =
      .ok (bytesOfString ":0000000000", 11) ∧
    parse (bytesOfString ":0000000000") = .ok (.Data (List.replicate 255 0) 0 0) ∧
    IHex.Data (List.replicate 255 0) 0 0 ≠ .Data (1 :: List.replicate 254 0) 0 0 := by
  exact ⟨by decide, by decide, by decide, by decide⟩

/-- C1 amended witness: the round-trip at `EndOfFile` with an 11-byte
buffer. -/
theorem serialize_parse_roundtrip_witness :
    ∃ out, IHex.serialize .EndOfFile (List.replicate 11 0) = .ok (out, 11) ∧
      parse (out.take 11) = .ok .EndOfFile :=
  serialize_parse_roundtrip .EndOfFile (List.replicate 11 0) (by decide) (by decide)

end MicroIhex
